import Mathlib

/-!
Shallow embedding of the HireSense resume-analysis backend
(`src/uploads/app.py`, the JSON-API v4 variant, and
`src/app/uploads/app.py`, the server-rendered v3 variant).

Python numbers are modelled as exact rationals (`ℚ`); `round(x, 2)` is
modelled as round-half-to-even to two decimal places, matching Python's
`round` on exactly representable values.  Python `set`s of strings are
`Finset String`; a Python `dict` of roles is an association list
`List (String × RoleData)` in insertion (iteration) order;
`list.sort(key=..., reverse=True)` is the stable `List.mergeSort` with the
score-descending comparison.
-/

namespace HireSense

/-- Round a rational to the nearest integer, ties going to the even
integer (the semantics of Python's builtin `round` at exact values). -/
def roundHalfEven (x : ℚ) : ℤ :=
  let n := ⌊x⌋
  let f := x - n
  if f < 1/2 then n
  else if 1/2 < f then n + 1
  else if n % 2 = 0 then n else n + 1

/-- Python `round(x, 2)`: round to two decimal places. -/
def round2 (x : ℚ) : ℚ := (roundHalfEven (x * 100) : ℚ) / 100

/-- Python `str.lower()`, character by character (the keyword and skill
data of this app is ASCII). -/
def lowerStr (s : String) : String := ⟨s.data.map Char.toLower⟩

/-- Python `str.strip()`: drop leading and trailing whitespace. -/
def trimStr (s : String) : String :=
  ⟨((s.data.dropWhile Char.isWhitespace).reverse.dropWhile
      Char.isWhitespace).reverse⟩

/-- Python `str.split()` with no argument: split on runs of whitespace,
discarding empty pieces. -/
def splitWs (s : String) : List String :=
  ((s.data.splitOnP Char.isWhitespace).filter (fun l => !(l.isEmpty))).map
    (fun l => ⟨l⟩)

/-- One value of the role dictionary: the `required` and `optional`
keyword lists of a role (`data.get("required", [])` /
`data.get("optional", [])` in `score_roles`). -/
structure RoleData where
  required : List String
  opt : List String
deriving DecidableEq

/-- Lowercase a keyword list and collect it into a set:
`set(k.lower() for k in ...)` in `score_roles`. -/
def lowerSet (l : List String) : Finset String := (l.map lowerStr).toFinset

/-- The required-keyword hit ratio of a single role:
`len(hits_req) / len(req) if req else 0` (app.py line 80 / line 92). -/
def req_score (skills : Finset String) (d : RoleData) : ℚ :=
  let req := lowerSet d.required
  if req = ∅ then 0 else ((req ∩ skills).card : ℚ) / req.card

/-- The optional-keyword hit ratio of a single role:
`len(hits_opt) / len(opt) if opt else 0` (app.py line 81 / line 93). -/
def opt_score (skills : Finset String) (d : RoleData) : ℚ :=
  let opt := lowerSet d.opt
  if opt = ∅ then 0 else ((opt ∩ skills).card : ℚ) / opt.card

/-- The weighted final ratio of a role:
`final = 0.7 * req_score + 0.3 * opt_score`. -/
def roleFinal (skills : Finset String) (d : RoleData) : ℚ :=
  7/10 * req_score skills d + 3/10 * opt_score skills d

/-- The rounded percentage score of a role: `round(final * 100, 2)`. -/
def roleScore (skills : Finset String) (d : RoleData) : ℚ :=
  round2 (roleFinal skills d * 100)

/-- The `scores` list of `score_roles` before sorting, in dictionary
iteration order: one `(role, round(final * 100, 2))` pair per role. -/
def rawScores (skills : Finset String) (roles : List (String × RoleData)) :
    List (String × ℚ) :=
  roles.map (fun rd => (rd.1, roleScore skills rd.2))

/-- The `missing` set of `score_roles`: the union over all roles of
`req - skills_lower` (app.py line 84 / line 96). -/
def missingSet (skills : Finset String) (roles : List (String × RoleData)) :
    Finset String :=
  roles.foldl (fun m rd => m ∪ (lowerSet rd.2.required \ skills)) ∅

/-- The comparison used by `scores.sort(key=lambda x: x[1], reverse=True)`:
score-descending, so that the stable sort keeps dictionary order on ties. -/
def scoreDescBool (a b : String × ℚ) : Bool := decide (b.2 ≤ a.2)

/-- The `scores` list after the stable descending in-place sort. -/
def sortedScores (skills : Finset String) (roles : List (String × RoleData)) :
    List (String × ℚ) :=
  (rawScores skills roles).mergeSort scoreDescBool

/-- The recommended-role list before any target-role injection:
`[r for r, s in scores if s >= 40][:3] or [r for r, _ in scores[:3]]`. -/
def recBase (sorted : List (String × ℚ)) : List String :=
  let qual := ((sorted.filter (fun p => decide (40 ≤ p.2))).map Prod.fst).take 3
  if qual = [] then (sorted.take 3).map Prod.fst else qual

/-- Target-role injection of the v4 variant (src/uploads/app.py line 87):
prepend `target_role` when it is truthy, not already recommended, and is a
key of the scored roles (`any(r == target_role for r, _ in scores)`). -/
def recRolesV4 (sorted : List (String × ℚ)) (target : Option String) :
    List String :=
  let base := recBase sorted
  match target with
  | none => base
  | some t =>
    if t ≠ "" ∧ t ∉ base ∧ sorted.any (fun p => p.1 = t) then t :: base else base

/-- Target-role injection of the v3 variant (src/app/uploads/app.py
line 99): prepend any truthy `target_role` not already recommended —
there is no check that it is a known role. -/
def recRolesV3 (sorted : List (String × ℚ)) (target : Option String) :
    List String :=
  let base := recBase sorted
  match target with
  | none => base
  | some t => if t ≠ "" ∧ t ∉ base then t :: base else base

/-- The dictionary returned by `score_roles`. -/
structure ScoreResult where
  ats_score : ℚ
  recommended_roles : List String
  role_scores : List (String × ℚ)
  missing_skills : List String
deriving DecidableEq

/-- `score_roles(skills_lower, roles_dict, target_role)` of
src/uploads/app.py (lines 74–94): scores every role, sorts descending
(stable), and returns ats score, recommended roles, the top-6 role scores
and the first 12 sorted missing required skills. -/
def score_roles (skills : Finset String) (roles : List (String × RoleData))
    (target : Option String) : ScoreResult :=
  let sorted := sortedScores skills roles
  { ats_score := ((sorted.head?).map Prod.snd).getD 0
    recommended_roles := recRolesV4 sorted target
    role_scores := sorted.take 6
    missing_skills := ((missingSet skills roles).sort (· ≤ ·)).take 12 }

/-- `score_roles` of src/app/uploads/app.py (lines 86–106): identical to
the v4 variant except for the target-role injection condition. -/
def score_roles_v3 (skills : Finset String) (roles : List (String × RoleData))
    (target : Option String) : ScoreResult :=
  let sorted := sortedScores skills roles
  { ats_score := ((sorted.head?).map Prod.snd).getD 0
    recommended_roles := recRolesV3 sorted target
    role_scores := sorted.take 6
    missing_skills := ((missingSet skills roles).sort (· ≤ ·)).take 12 }

/-! ### Skill extraction (`extract_skills`)

The spaCy pass and the heuristic `simple_skill_extract` are external
collaborators (the `utils` package is not part of this repository's
sources); the function is embedded over the list of candidate token texts
produced by the tagging pass and the list returned by the heuristic
extractor. -/

/-- A character accepted by the regex class of `extract_skills`
(`[A-Za-z#\+\-\.]` — an ASCII letter, or one of the characters
hash, plus, minus, dot; note the class contains no digits). -/
def hasSkillChar (c : Char) : Bool :=
  c.isAlpha || c == '#' || c == '+' || c == '-' || c == '.'

/-- The filter applied to a stripped, lowercased candidate token:
`2 <= len(token) <= 30 and re.search(r"[A-Za-z#\+\-\.]", token)`. -/
def keepToken (t : String) : Bool :=
  decide (2 ≤ t.length) && decide (t.length ≤ 30) && t.toList.any hasSkillChar

/-- Process one candidate token of the tagging pass:
`token = tok.text.strip().lower()`; keep it when it passes the filter. -/
def nlpCandidate (t : String) : Option String :=
  let v := lowerStr (trimStr t)
  if keepToken v then some v else none

/-- `extract_skills(text)` (src/uploads/app.py lines 61–72 and
src/app/uploads/app.py lines 62–72), given the candidate token texts of
the tagging pass and the output of `simple_skill_extract`: the union of
the filtered lowercased candidates and the heuristic output, as a sorted
deduplicated list (`sorted(skills)`). -/
def extract_skills (nlpTokens : List String) (heuristic : List String) :
    List String :=
  ((nlpTokens.filterMap nlpCandidate).toFinset ∪ heuristic.toFinset).sort (· ≤ ·)

/-! ### JD similarity (`jd_similarity`)

The TF-IDF branch (`SKLEARN_OK`) calls an external vectorizer; the
embedding is the code path with the vector-similarity capability
unavailable (`SKLEARN_OK = False`), which is what claim C5 is about. -/

/-- Whitespace-split lowercase token set of a text:
`set(text.lower().split())`. -/
def tokenSet (s : String) : Finset String :=
  (splitWs (lowerStr s)).toFinset

/-- `jd_similarity(resume_text, jd_text)` with the vector-similarity
capability unavailable (src/uploads/app.py lines 96–105,
src/app/uploads/app.py lines 75–83): `0.0` for empty/whitespace-only
`jd_text`, else `round(100 * len(r & j) / len(j), 2)` over the
whitespace-split lowercase token sets, or `0.0` when `j` is empty. -/
def jd_similarity (resume_text jd_text : String) : ℚ :=
  if trimStr jd_text = "" then 0
  else
    let r := tokenSet resume_text
    let j := tokenSet jd_text
    if j = ∅ then 0
    else round2 (100 * ((r ∩ j).card : ℚ) / j.card)

/-! ### History store (`save_history` / `load_history`)

The history file is modelled by its observable parse states: absent,
present but empty, present with unparsable content, or holding a JSON
list of entries.  Entries are opaque (`α`). -/

/-- Observable states of the history file. -/
inductive StoreState (α : Type) where
  | missing
  | emptyFile
  | corrupt
  | stored (entries : List α)
deriving DecidableEq

/-- What a read inside `save_history` yields:
`json.loads(...) if size > 0 else []`, with any parse failure caught and
replaced by `[]` (src/uploads/app.py lines 109–112,
src/app/uploads/app.py lines 112–117). -/
def parsedData {α : Type} : StoreState α → List α
  | .stored l => l
  | _ => []

/-- The shared body of both `save_history` variants: touch the file, read
the current list (corruption swallowed), `data.insert(0, entry)`, then
write `data[:cap]`. -/
def saveHistoryCap {α : Type} (cap : ℕ) (entry : α) (st : StoreState α) :
    StoreState α :=
  .stored ((entry :: parsedData st).take cap)

/-- `save_history(entry)` of src/uploads/app.py (lines 107–114):
capacity 100. -/
def save_history {α : Type} (entry : α) (st : StoreState α) : StoreState α :=
  saveHistoryCap 100 entry st

/-- `save_history(entry)` of src/app/uploads/app.py (lines 109–119):
capacity 50. -/
def save_history_v3 {α : Type} (entry : α) (st : StoreState α) : StoreState α :=
  saveHistoryCap 50 entry st

/-- `load_history()` (src/uploads/app.py lines 116–122,
src/app/uploads/app.py lines 122–128): the stored list, or `[]` when the
file is missing, empty, or unparsable — never an error. -/
def load_history {α : Type} : StoreState α → List α
  | .stored l => l
  | _ => []

/-! ### Helper lemmas -/

/-- The score-descending comparison holds exactly when the second score is
at most the first. -/
theorem scoreDescBool_iff (a b : String × ℚ) :
    scoreDescBool a b = true ↔ b.2 ≤ a.2 := by
  simp [scoreDescBool]

theorem scoreDescBool_trans (a b c : String × ℚ)
    (hab : scoreDescBool a b) (hbc : scoreDescBool b c) : scoreDescBool a c := by
  rw [scoreDescBool_iff] at *
  exact le_trans hbc hab

theorem scoreDescBool_total (a b : String × ℚ) :
    scoreDescBool a b || scoreDescBool b a := by
  simp only [scoreDescBool, Bool.or_eq_true, decide_eq_true_eq]
  exact le_total b.2 a.2

/-- A stable sort does not reorder the elements selected by a predicate on
which the comparison is indifferent: filtering the sorted list by such a
predicate gives the same list as filtering the input. -/
theorem filter_mergeSort_agree {α : Type} (le : α → α → Bool) (p : α → Bool)
    (htrans : ∀ (a b c : α), le a b → le b c → le a c)
    (htotal : ∀ (a b : α), le a b || le b a)
    (hagree : ∀ a b, p a → p b → le a b) (l : List α) :
    (l.mergeSort le).filter p = l.filter p := by
  have hsub : List.Sublist (l.filter p) l := List.filter_sublist l
  have hpw : (l.filter p).Pairwise (fun a b => le a b) := by
    apply List.pairwise_of_forall_mem_list
    intro a ha b hb
    exact hagree a b (List.of_mem_filter ha) (List.of_mem_filter hb)
  have h1 : List.Sublist (l.filter p) (l.mergeSort le) :=
    List.sublist_mergeSort htrans htotal hpw hsub
  have h2 : List.Sublist ((l.filter p).filter p) ((l.mergeSort le).filter p) :=
    h1.filter p
  have h3 : (l.filter p).filter p = l.filter p :=
    List.filter_eq_self.mpr (fun a ha => List.of_mem_filter ha)
  rw [h3] at h2
  have hperm : List.Perm ((l.mergeSort le).filter p) (l.filter p) :=
    (l.mergeSort_perm le).filter p
  exact (h2.eq_of_length hperm.length_eq.symm).symm

/-- The sorted score list is descending in its second components. -/
theorem sortedScores_pairwise (skills : Finset String)
    (roles : List (String × RoleData)) :
    (sortedScores skills roles).Pairwise
      (fun a b : String × ℚ => b.2 ≤ a.2) := by
  have h := List.sorted_mergeSort scoreDescBool_trans scoreDescBool_total
    (rawScores skills roles)
  exact h.imp (fun hab => (scoreDescBool_iff _ _).mp hab)

/-- Truncating the second part of an append before an outer truncation of
the same length changes nothing. -/
theorem take_append_take {α : Type} (A t : List α) (n : ℕ) :
    (A ++ t.take n).take n = (A ++ t).take n := by
  rw [List.take_append_eq_append_take, List.take_append_eq_append_take,
    List.take_take, Nat.min_eq_left (Nat.sub_le n A.length)]

/-- Membership in the accumulated missing-skill set, for an arbitrary
initial accumulator. -/
theorem mem_missingSet_aux (skills : Finset String)
    (roles : List (String × RoleData)) (init : Finset String) (x : String) :
    x ∈ roles.foldl (fun m rd => m ∪ (lowerSet rd.2.required \ skills)) init ↔
      x ∈ init ∨ ∃ rd ∈ roles, x ∈ lowerSet rd.2.required ∧ x ∉ skills := by
  induction roles generalizing init with
  | nil => simp
  | cons hd tl ih =>
    simp only [List.foldl_cons, ih, Finset.mem_union, Finset.mem_sdiff,
      List.mem_cons]
    constructor
    · rintro (⟨hi | hm⟩ | ⟨rd, hrd, hx⟩)
      · exact Or.inl hi
      · exact Or.inr ⟨hd, Or.inl rfl, hm⟩
      · exact Or.inr ⟨rd, Or.inr hrd, hx⟩
    · rintro (hi | ⟨rd, hrd | hrd, hx⟩)
      · exact Or.inl (Or.inl hi)
      · exact Or.inl (Or.inr (hrd ▸ hx))
      · exact Or.inr ⟨rd, hrd, hx⟩

/-- Membership in the missing-skill set: some role requires the lowercased
keyword and the skill set lacks it. -/
theorem mem_missingSet (skills : Finset String)
    (roles : List (String × RoleData)) (x : String) :
    x ∈ missingSet skills roles ↔
      ∃ rd ∈ roles, x ∈ lowerSet rd.2.required ∧ x ∉ skills := by
  simpa using mem_missingSet_aux skills roles ∅ x

/-- The rounded value is nonnegative for nonnegative input. -/
theorem roundHalfEven_nonneg {x : ℚ} (hx : 0 ≤ x) : 0 ≤ roundHalfEven x := by
  have h0 : (0 : ℤ) ≤ ⌊x⌋ := Int.floor_nonneg.mpr hx
  unfold roundHalfEven
  dsimp only
  split
  · exact h0
  · split
    · omega
    · split
      · exact h0
      · omega

/-- The rounded value never exceeds an integer bound of the input. -/
theorem roundHalfEven_le {x : ℚ} {m : ℤ} (hx : x ≤ (m : ℚ)) :
    roundHalfEven x ≤ m := by
  have hfl : ⌊x⌋ ≤ m := by
    have := Int.floor_le_floor hx
    simpa using this
  unfold roundHalfEven
  dsimp only
  split
  · exact hfl
  · rename_i h1
    have hge : (1 : ℚ)/2 ≤ x - ⌊x⌋ := not_lt.mp h1
    have hx2 : (⌊x⌋ : ℚ) + 1/2 ≤ (m : ℚ) := by
      have := Int.floor_le x
      linarith
    have hlt : ⌊x⌋ < m := by
      by_contra hc
      push_neg at hc
      have : (m : ℚ) ≤ (⌊x⌋ : ℚ) := by exact_mod_cast hc
      linarith
    split
    · omega
    · split
      · omega
      · omega

/-- Two-decimal rounding keeps `[0, 100]`. -/
theorem round2_mem_Icc {x : ℚ} (h0 : 0 ≤ x) (h100 : x ≤ 100) :
    0 ≤ round2 x ∧ round2 x ≤ 100 := by
  have hnn : 0 ≤ roundHalfEven (x * 100) :=
    roundHalfEven_nonneg (by positivity)
  have hub : roundHalfEven (x * 100) ≤ (10000 : ℤ) := by
    apply roundHalfEven_le
    push_cast
    linarith
  unfold round2
  constructor
  · positivity
  · rw [div_le_iff₀ (by norm_num : (0 : ℚ) < 100)]
    exact_mod_cast le_trans hub (by norm_num)

/-- Rounding an integer returns it. -/
theorem roundHalfEven_intCast (k : ℤ) : roundHalfEven (k : ℚ) = k := by
  unfold roundHalfEven
  norm_num

/-- Two-decimal rounding of a value that is an exact multiple of a
hundredth. -/
theorem round2_eq_of_mul_eq_int (x : ℚ) (k : ℤ) (h : x * 100 = (k : ℚ)) :
    round2 x = (k : ℚ) / 100 := by
  unfold round2
  rw [h, roundHalfEven_intCast]

/-- A two-decimal rounded value times 100 is an integer. -/
theorem round2_mul_100_int (x : ℚ) :
    ∃ k : ℤ, round2 x * 100 = (k : ℚ) := by
  refine ⟨roundHalfEven (x * 100), ?_⟩
  unfold round2
  field_simp

/-- A filtered candidate of the tagging pass: the stripped lowercased
token, provided it passes the length/character filter. -/
theorem nlpCandidate_eq_some (t x : String) :
    nlpCandidate t = some x ↔ lowerStr (trimStr t) = x ∧ keepToken x = true := by
  unfold nlpCandidate
  dsimp only
  split
  · rename_i h
    constructor
    · intro he
      cases he
      exact ⟨rfl, h⟩
    · rintro ⟨he, _⟩
      rw [he]
  · rename_i h
    constructor
    · intro he
      cases he
    · rintro ⟨he, hk⟩
      rw [he] at h
      exact absurd hk h

/-- Folding a capacity-bounded save over a nonempty list of entries from
any initial store state yields the stored file holding the entries newest
first, in front of whatever was parseable before, truncated to the
capacity. -/
theorem foldl_saveCap {α : Type} (cap : ℕ) :
    ∀ (es : List α) (e : α) (init : StoreState α),
      (e :: es).foldl (fun st x => saveHistoryCap cap x st) init
        = StoreState.stored (((e :: es).reverse ++ parsedData init).take cap)
  | [], e, init => by
      simp [saveHistoryCap]
  | x :: es, e, init => by
      have ih := foldl_saveCap cap es x (saveHistoryCap cap e init)
      have hstep : (e :: x :: es).foldl
            (fun st y => saveHistoryCap cap y st) init
          = (x :: es).foldl (fun st y => saveHistoryCap cap y st)
              (saveHistoryCap cap e init) := rfl
      rw [hstep, ih]
      congr 1
      have hp : parsedData (saveHistoryCap cap e init)
          = (e :: parsedData init).take cap := rfl
      rw [hp, take_append_take]
      simp

/-! ### Claim theorems -/

/-- C7: from every initial store state, any nonempty sequence of
`save_history` calls leaves the persisted list with the newest entry
first (the saved entries in reverse order of saving, in front of the
previously parseable contents) and truncated to the capacity — 100 in the
v4 variant, 50 in the v3 variant — so the store never exceeds its
capacity and the oldest entries are silently dropped first. -/
theorem claim_C7 (α : Type) (init : StoreState α) (e : α) (es : List α) :
    (e :: es).foldl (fun st x => save_history x st) init
        = StoreState.stored (((e :: es).reverse ++ parsedData init).take 100) ∧
    (((e :: es).reverse ++ parsedData init).take 100).length ≤ 100 ∧
    (e :: es).foldl (fun st x => save_history_v3 x st) init
        = StoreState.stored (((e :: es).reverse ++ parsedData init).take 50) ∧
    (((e :: es).reverse ++ parsedData init).take 50).length ≤ 50 :=
  ⟨foldl_saveCap 100 es e init, List.length_take_le _ _,
   foldl_saveCap 50 es e init, List.length_take_le _ _⟩

/-- C1: for every skill set, role dictionary and target role, the
`role_scores` list returned by `score_roles` is the first 6 entries of
the stably sorted score list; it is sorted descending by score, with
length at most 6, and elements of equal score keep the dictionary
iteration order (filtering the sorted list by any score value gives
exactly the corresponding sub-sequence of the unsorted dictionary-order
list); `ats_score` is the score of the head of `role_scores` whenever at
least one role is configured and 0 when the role dictionary is empty.
The v3 variant returns the same `role_scores` and `ats_score`. -/
theorem claim_C1 (skills : Finset String) (roles : List (String × RoleData))
    (target : Option String) :
    (score_roles skills roles target).role_scores
        = (sortedScores skills roles).take 6 ∧
    (score_roles skills roles target).role_scores.length ≤ 6 ∧
    (score_roles skills roles target).role_scores.Pairwise
        (fun a b : String × ℚ => b.2 ≤ a.2) ∧
    (∀ q : ℚ, (sortedScores skills roles).filter (fun p => decide (p.2 = q))
        = (rawScores skills roles).filter (fun p => decide (p.2 = q))) ∧
    (roles = [] → (score_roles skills roles target).ats_score = 0) ∧
    (roles ≠ [] → ∃ hd : String × ℚ,
      (score_roles skills roles target).role_scores.head? = some hd ∧
      (score_roles skills roles target).ats_score = hd.2) ∧
    (score_roles_v3 skills roles target).role_scores
        = (score_roles skills roles target).role_scores ∧
    (score_roles_v3 skills roles target).ats_score
        = (score_roles skills roles target).ats_score := by
  refine ⟨rfl, List.length_take_le _ _, ?_, ?_, ?_, ?_, rfl, rfl⟩
  · exact List.Pairwise.sublist (List.take_sublist 6 _)
      (sortedScores_pairwise skills roles)
  · intro q
    apply filter_mergeSort_agree scoreDescBool _ scoreDescBool_trans
      scoreDescBool_total
    intro a b ha hb
    have ha2 : a.2 = q := of_decide_eq_true ha
    have hb2 : b.2 = q := of_decide_eq_true hb
    rw [scoreDescBool_iff, ha2, hb2]
  · intro h
    subst h
    simp [score_roles, sortedScores, rawScores]
  · intro h
    have hlen : (sortedScores skills roles).length = roles.length := by
      simp [sortedScores, rawScores]
    have hne : sortedScores skills roles ≠ [] := by
      intro hc
      rw [hc] at hlen
      exact h (List.eq_nil_of_length_eq_zero hlen.symm)
    obtain ⟨x, xs, hx⟩ := List.exists_cons_of_ne_nil hne
    refine ⟨x, ?_, ?_⟩
    · show ((sortedScores skills roles).take 6).head? = some x
      rw [hx]
      rfl
    · show (((sortedScores skills roles).head?).map Prod.snd).getD 0 = x.2
      rw [hx]
      rfl

/-- C1, witness: at a concrete one-role dictionary the head of
`role_scores` carries `ats_score`, and at the empty dictionary
`ats_score` is 0. -/
theorem claim_C1_wit :
    (∃ hd : String × ℚ,
      (score_roles ∅ [("A", RoleData.mk [] [])] none).role_scores.head?
          = some hd ∧
      (score_roles ∅ [("A", RoleData.mk [] [])] none).ats_score = hd.2) ∧
    (score_roles ∅ ([] : List (String × RoleData)) none).ats_score = 0 :=
  ⟨(claim_C1 ∅ [("A", RoleData.mk [] [])] none).2.2.2.2.2.1 (by decide),
   (claim_C1 ∅ [] none).2.2.2.2.1 rfl⟩

/-- The known-role test of the v4 variant — `any(r == target_role for
r, _ in scores)` over the sorted score list — holds exactly when the
target is a key of the role dictionary. -/
theorem any_sortedScores_key (skills : Finset String)
    (roles : List (String × RoleData)) (t : String) :
    ((sortedScores skills roles).any (fun p => decide (p.1 = t)) = true)
      ↔ t ∈ roles.map Prod.fst := by
  rw [List.any_eq_true]
  constructor
  · rintro ⟨p, hp, hpt⟩
    have hp' : p ∈ rawScores skills roles := by
      have : p ∈ (rawScores skills roles).mergeSort scoreDescBool := hp
      exact List.mem_mergeSort.mp this
    obtain ⟨rd, hrd, hrdp⟩ := List.mem_map.mp hp'
    refine List.mem_map.mpr ⟨rd, hrd, ?_⟩
    have : p.1 = t := of_decide_eq_true hpt
    rw [← this, ← hrdp]
  · intro ht
    obtain ⟨rd, hrd, hfst⟩ := List.mem_map.mp ht
    refine ⟨(rd.1, roleScore skills rd.2), ?_, ?_⟩
    · exact List.mem_mergeSort.mpr (List.mem_map.mpr ⟨rd, hrd, rfl⟩)
    · exact decide_eq_true hfst

/-- C2, amended: for every skill set, role dictionary and target role,
the base recommended list is the first 3 roles of the descending-sorted
list with score at least 40, or the top 3 roles when none qualify, and
has length at most 3; with no target role both variants return the base
list.  In the v4 variant (src/uploads/app.py) a supplied target role is
prepended exactly when it is non-empty, not already recommended, and a
known role of the dictionary — the list then has length at most 4, and at
most 3 in every other case.  In the v3 variant (src/app/uploads/app.py)
the known-role condition is absent: any non-empty target role not already
recommended is prepended, known or not. -/
theorem claim_C2 (skills : Finset String) (roles : List (String × RoleData))
    (t : String) :
    (recBase (sortedScores skills roles)).length ≤ 3 ∧
    recBase (sortedScores skills roles)
        = (if (sortedScores skills roles).filter
              (fun p => decide (40 ≤ p.2)) = []
           then ((sortedScores skills roles).take 3).map Prod.fst
           else (((sortedScores skills roles).filter
                 (fun p => decide (40 ≤ p.2))).map Prod.fst).take 3) ∧
    (score_roles skills roles none).recommended_roles
        = recBase (sortedScores skills roles) ∧
    (score_roles skills roles (some t)).recommended_roles
        = (if t ≠ "" ∧ t ∉ recBase (sortedScores skills roles)
              ∧ t ∈ roles.map Prod.fst
           then t :: recBase (sortedScores skills roles)
           else recBase (sortedScores skills roles)) ∧
    (score_roles skills roles (some t)).recommended_roles.length ≤ 4 ∧
    (¬(t ≠ "" ∧ t ∉ recBase (sortedScores skills roles)
          ∧ t ∈ roles.map Prod.fst) →
      (score_roles skills roles (some t)).recommended_roles.length ≤ 3) ∧
    (score_roles_v3 skills roles none).recommended_roles
        = recBase (sortedScores skills roles) ∧
    (score_roles_v3 skills roles (some t)).recommended_roles
        = (if t ≠ "" ∧ t ∉ recBase (sortedScores skills roles)
           then t :: recBase (sortedScores skills roles)
           else recBase (sortedScores skills roles)) := by
  have hlen : (recBase (sortedScores skills roles)).length ≤ 3 := by
    unfold recBase
    dsimp only
    split
    · rw [List.length_map]
      exact List.length_take_le _ _
    · exact List.length_take_le _ _
  have hv4 : (score_roles skills roles (some t)).recommended_roles
      = (if t ≠ "" ∧ t ∉ recBase (sortedScores skills roles)
            ∧ t ∈ roles.map Prod.fst
         then t :: recBase (sortedScores skills roles)
         else recBase (sortedScores skills roles)) := by
    show recRolesV4 (sortedScores skills roles) (some t) = _
    unfold recRolesV4
    dsimp only
    refine if_congr ?_ rfl rfl
    exact and_congr_right (fun _ => and_congr_right
      (fun _ => any_sortedScores_key skills roles t))
  refine ⟨hlen, ?_, rfl, hv4, ?_, ?_, rfl, rfl⟩
  · unfold recBase
    dsimp only
    refine if_congr ?_ rfl rfl
    rw [List.take_eq_nil_iff]
    simp
  · rw [hv4]
    split
    · simpa using hlen
    · omega
  · intro h
    rw [hv4, if_neg h]
    exact hlen

/-- C2, witness: with an empty target role the prepend condition fails
and the recommended list stays within 3 entries. -/
theorem claim_C2_wit :
    (score_roles ∅ ([] : List (String × RoleData))
        (some "")).recommended_roles.length ≤ 3 :=
  (claim_C2 ∅ [] "").2.2.2.2.2.1 (fun h => h.1 rfl)

/-- C4: for every skill set, role dictionary and target role, the
`missing_skills` list returned by `score_roles` is the accumulated
missing set — the union over all roles, not just the top role, of the
role's lowercased required keywords absent from the skill set — sorted
alphabetically and truncated to the first 12 entries; hence it has length
at most 12, is strictly sorted, contains no skill of the input skill set,
and every entry is an unmet required keyword of some role. -/
theorem claim_C4 (skills : Finset String) (roles : List (String × RoleData))
    (target : Option String) :
    (score_roles skills roles target).missing_skills
        = ((missingSet skills roles).sort (· ≤ ·)).take 12 ∧
    (score_roles skills roles target).missing_skills.length ≤ 12 ∧
    (score_roles skills roles target).missing_skills.Pairwise (· < ·) ∧
    (∀ x, x ∈ missingSet skills roles ↔
      ∃ rd ∈ roles, x ∈ lowerSet rd.2.required ∧ x ∉ skills) ∧
    (∀ x, x ∈ (score_roles skills roles target).missing_skills →
      x ∉ skills) ∧
    (∀ x, x ∈ (score_roles skills roles target).missing_skills →
      ∃ rd ∈ roles, x ∈ lowerSet rd.2.required ∧ x ∉ skills) := by
  have hmem : ∀ x, x ∈ (score_roles skills roles target).missing_skills →
      x ∈ missingSet skills roles := by
    intro x hx
    have hx' : x ∈ (missingSet skills roles).sort (· ≤ ·) :=
      List.take_subset 12 _ hx
    exact (Finset.mem_sort _).mp hx'
  refine ⟨rfl, List.length_take_le _ _, ?_, mem_missingSet skills roles,
      ?_, ?_⟩
  · exact List.Pairwise.sublist (List.take_sublist 12 _)
      (Finset.sort_sorted_lt _)
  · intro x hx
    exact ((mem_missingSet skills roles x).mp (hmem x hx)).choose_spec.2.2
  · intro x hx
    exact (mem_missingSet skills roles x).mp (hmem x hx)

/-- C4, witness: at a concrete one-role dictionary the entry sql of
`missing_skills` is not a skill and is a required keyword of the role. -/
theorem claim_C4_wit :
    ("sql" ∉ (∅ : Finset String)) ∧
    (∃ rd ∈ [("A", RoleData.mk ["sql"] [])],
      "sql" ∈ lowerSet rd.2.required ∧ "sql" ∉ (∅ : Finset String)) := by
  have hmem : "sql" ∈ (score_roles ∅ [("A", RoleData.mk ["sql"] [])]
      none).missing_skills := by
    show "sql" ∈ ((missingSet ∅ [("A", RoleData.mk ["sql"] [])]).sort
        (· ≤ ·)).take 12
    rw [show missingSet ∅ [("A", RoleData.mk ["sql"] [])]
        = ({"sql"} : Finset String) from by decide, Finset.sort_singleton]
    simp
  exact ⟨(claim_C4 ∅ [("A", RoleData.mk ["sql"] [])] none).2.2.2.2.1
      "sql" hmem,
    (claim_C4 ∅ [("A", RoleData.mk ["sql"] [])] none).2.2.2.2.2
      "sql" hmem⟩

/-- C5: `jd_similarity` (with the vector-similarity capability
unavailable) returns 0 for every resume when the job description is
empty or whitespace-only, and 0 when the job description has no tokens;
otherwise it returns the token-overlap ratio
`round(100 * |tokens(resume) ∩ tokens(jd)| / |tokens(jd)|, 2)`; the
result is always in `[0, 100]` and is an exact multiple of a
hundredth. -/
theorem claim_C5 (resume jd : String) :
    (trimStr jd = "" → jd_similarity resume jd = 0) ∧
    (tokenSet jd = ∅ → jd_similarity resume jd = 0) ∧
    (trimStr jd ≠ "" → tokenSet jd ≠ ∅ → jd_similarity resume jd
        = round2 (100 * ((tokenSet resume ∩ tokenSet jd).card : ℚ)
            / ((tokenSet jd).card : ℚ))) ∧
    0 ≤ jd_similarity resume jd ∧ jd_similarity resume jd ≤ 100 ∧
    (∃ k : ℤ, jd_similarity resume jd * 100 = (k : ℚ)) := by
  have hval : jd_similarity resume jd
      = (if trimStr jd = "" then 0 else if tokenSet jd = ∅ then 0
         else round2 (100 * ((tokenSet resume ∩ tokenSet jd).card : ℚ)
            / ((tokenSet jd).card : ℚ))) := rfl
  by_cases h1 : trimStr jd = ""
  · rw [hval, if_pos h1]
    exact ⟨fun _ => rfl, fun _ => rfl, fun hc => absurd h1 hc,
      le_refl 0, by norm_num, ⟨0, by norm_num⟩⟩
  · by_cases h2 : tokenSet jd = ∅
    · rw [hval, if_neg h1, if_pos h2]
      exact ⟨fun hc => absurd hc h1, fun _ => rfl,
        fun _ hc => absurd h2 hc, le_refl 0, by norm_num, ⟨0, by norm_num⟩⟩
    · rw [hval, if_neg h1, if_neg h2]
      have hpos : 0 < ((tokenSet jd).card : ℚ) := by
        have := Finset.card_pos.mpr (Finset.nonempty_iff_ne_empty.mpr h2)
        exact_mod_cast this
      have hle : ((tokenSet resume ∩ tokenSet jd).card : ℚ)
          ≤ ((tokenSet jd).card : ℚ) := by
        exact_mod_cast Finset.card_le_card Finset.inter_subset_right
      have harg0 : 0 ≤ 100 * ((tokenSet resume ∩ tokenSet jd).card : ℚ)
          / ((tokenSet jd).card : ℚ) := by positivity
      have harg100 : 100 * ((tokenSet resume ∩ tokenSet jd).card : ℚ)
          / ((tokenSet jd).card : ℚ) ≤ 100 := by
        rw [div_le_iff₀ hpos]
        nlinarith
      obtain ⟨hb0, hb100⟩ := round2_mem_Icc harg0 harg100
      exact ⟨fun hc => absurd hc h1, fun hc => absurd hc h2,
        fun _ _ => rfl, hb0, hb100, round2_mul_100_int _⟩

/-- C5, witness: a whitespace-only job description scores 0, and a
nonempty one takes the token-overlap value. -/
theorem claim_C5_wit :
    jd_similarity "a" " " = 0 ∧
    jd_similarity "a b" "b c"
        = round2 (100 * ((tokenSet "a b" ∩ tokenSet "b c").card : ℚ)
            / ((tokenSet "b c").card : ℚ)) :=
  ⟨(claim_C5 "a" " ").1 (by decide),
   (claim_C5 "a b" "b c").2.2.1 (by decide) (by decide)⟩

/-- C6: `score_roles` is total: a role with an empty required keyword
list gets a required ratio of 0 — the division is guarded, no error — and
its weighted score reduces to the optional component; symmetrically for
an empty optional list. -/
theorem claim_C6 (skills : Finset String) (d : RoleData) :
    (d.required = [] → req_score skills d = 0 ∧
      roleFinal skills d = 3/10 * opt_score skills d) ∧
    (d.opt = [] → opt_score skills d = 0 ∧
      roleFinal skills d = 7/10 * req_score skills d) := by
  constructor
  · intro h
    have hr : req_score skills d = 0 := by
      unfold req_score
      rw [h]
      simp [lowerSet]
    refine ⟨hr, ?_⟩
    unfold roleFinal
    rw [hr]
    ring
  · intro h
    have ho : opt_score skills d = 0 := by
      unfold opt_score
      rw [h]
      simp [lowerSet]
    refine ⟨ho, ?_⟩
    unfold roleFinal
    rw [ho]
    ring

/-- C6, witness: a concrete role with no required keywords has required
ratio 0 and a score made of the optional component only. -/
theorem claim_C6_wit :
    req_score ∅ (RoleData.mk [] ["x"]) = 0 ∧
    roleFinal ∅ (RoleData.mk [] ["x"])
        = 3/10 * opt_score ∅ (RoleData.mk [] ["x"]) :=
  (claim_C6 ∅ (RoleData.mk [] ["x"])).1 rfl

/-- C9, amended: every candidate token of the capability-tagging pass is
stripped and lowercased, then kept only if its length is between 2 and 30
inclusive and it contains at least one character that is an ASCII letter
or one of hash, plus, minus, dot (digits alone do not qualify — the
regex class has no digits); the returned value is the union of the kept
candidates with the heuristic extractor's output, deduplicated and
strictly sorted. -/
theorem claim_C9 (nlpTokens heuristic : List String) :
    (extract_skills nlpTokens heuristic).Pairwise (· < ·) ∧
    (∀ x, x ∈ extract_skills nlpTokens heuristic ↔
      ((∃ t ∈ nlpTokens, lowerStr (trimStr t) = x ∧ keepToken x = true)
        ∨ x ∈ heuristic)) ∧
    (∀ u : String, keepToken u
        = (decide (2 ≤ u.length) && decide (u.length ≤ 30)
            && u.toList.any (fun c =>
              c.isAlpha || c == '#' || c == '+' || c == '-' || c == '.'))) := by
  refine ⟨Finset.sort_sorted_lt _, ?_, fun u => rfl⟩
  intro x
  unfold extract_skills
  rw [Finset.mem_sort, Finset.mem_union, List.mem_toFinset,
    List.mem_toFinset, List.mem_filterMap]
  constructor
  · rintro (⟨t, ht, hc⟩ | hh)
    · exact Or.inl ⟨t, ht, (nlpCandidate_eq_some t x).mp hc⟩
    · exact Or.inr hh
  · rintro (⟨t, ht, hc⟩ | hh)
    · exact Or.inl ⟨t, ht, (nlpCandidate_eq_some t x).mpr hc⟩
    · exact Or.inr hh

/-- C3: on the single-role dictionary with role A requiring python and
sql and optionally docker, against the skill set python, docker, with no
target role, `score_roles` computes a required ratio of 1/2 and an
optional ratio of 1, returns an ats score of 65 (0.7·0.5 + 0.3·1 = 0.65,
scaled to percent and rounded to two decimals) and the missing-skill list
consisting exactly of sql. -/
theorem claim_C3 :
    req_score (["python", "docker"].toFinset)
        (RoleData.mk ["python", "sql"] ["docker"]) = 1/2 ∧
    opt_score (["python", "docker"].toFinset)
        (RoleData.mk ["python", "sql"] ["docker"]) = 1 ∧
    (score_roles (["python", "docker"].toFinset)
        [("A", RoleData.mk ["python", "sql"] ["docker"])] none).ats_score
      = 65 ∧
    (score_roles (["python", "docker"].toFinset)
        [("A", RoleData.mk ["python", "sql"] ["docker"])] none).missing_skills
      = ["sql"] := by
  have h1 : req_score (["python", "docker"].toFinset)
      (RoleData.mk ["python", "sql"] ["docker"]) = 1/2 := by
    unfold req_score
    dsimp only
    rw [if_neg (by decide)]
    rw [show (lowerSet ["python", "sql"] ∩
        ["python", "docker"].toFinset).card = 1 from by decide]
    rw [show (lowerSet ["python", "sql"]).card = 2 from by decide]
    norm_num
  have h2 : opt_score (["python", "docker"].toFinset)
      (RoleData.mk ["python", "sql"] ["docker"]) = 1 := by
    unfold opt_score
    dsimp only
    rw [if_neg (by decide)]
    rw [show (lowerSet ["docker"] ∩
        ["python", "docker"].toFinset).card = 1 from by decide]
    rw [show (lowerSet ["docker"]).card = 1 from by decide]
    norm_num
  have h3 : roleScore (["python", "docker"].toFinset)
      (RoleData.mk ["python", "sql"] ["docker"]) = 65 := by
    unfold roleScore roleFinal
    rw [h1, h2]
    rw [show (7/10 * (1/2 : ℚ) + 3/10 * 1) * 100 = 65 from by norm_num]
    rw [round2_eq_of_mul_eq_int 65 6500 (by norm_num)]
    norm_num
  have hsorted : sortedScores (["python", "docker"].toFinset)
      [("A", RoleData.mk ["python", "sql"] ["docker"])]
      = [("A", roleScore (["python", "docker"].toFinset)
          (RoleData.mk ["python", "sql"] ["docker"]))] := by
    simp [sortedScores, rawScores]
  have hms : missingSet (["python", "docker"].toFinset)
      [("A", RoleData.mk ["python", "sql"] ["docker"])] = {"sql"} := by
    decide
  refine ⟨h1, h2, ?_, ?_⟩
  · unfold score_roles
    dsimp only
    rw [hsorted, h3]
    rfl
  · unfold score_roles
    dsimp only
    rw [hms, Finset.sort_singleton]
    rfl

/-- C8: `load_history` returns the stored list (newest first, as
persisted), and the empty list — without any error — when the history
file is missing, empty, or holds unparsable content. -/
theorem claim_C8 (α : Type) (l : List α) :
    load_history (StoreState.missing : StoreState α) = [] ∧
    load_history (StoreState.emptyFile : StoreState α) = [] ∧
    load_history (StoreState.corrupt : StoreState α) = [] ∧
    load_history (StoreState.stored l) = l :=
  ⟨rfl, rfl, rfl, rfl⟩

/-- C10: when the existing history file holds corrupt or unparsable
content, `save_history` does not raise: it discards the prior contents
and writes a history consisting of exactly the one new entry, in both
deployment variants. -/
theorem claim_C10 (α : Type) (e : α) :
    save_history e (StoreState.corrupt : StoreState α)
        = StoreState.stored [e] ∧
    save_history_v3 e (StoreState.corrupt : StoreState α)
        = StoreState.stored [e] :=
  ⟨rfl, rfl⟩

/-- C2, counterexample: in the v3 variant (src/app/uploads/app.py), with
the one-role dictionary for role A, no skills, and target role B — which
is not a key of the dictionary — the returned recommended-role list is
[B, A]: the unknown target is prepended, contradicting the claim that a
target role is prepended only when it is a known role of the dictionary
(the claim predicts [A] here). -/
theorem claim_C2_cex :
    (score_roles_v3 ∅ [("A", RoleData.mk ["x"] [])]
        (some "B")).recommended_roles = ["B", "A"] ∧
    "B" ∉ ([("A", RoleData.mk ["x"] [])].map Prod.fst) ∧
    (["B", "A"] : List String) ≠ ["A"] := by
  have hscore : roleScore ∅ (RoleData.mk ["x"] []) = 0 := by
    unfold roleScore roleFinal req_score opt_score
    dsimp only
    rw [if_neg (by decide), if_pos (by decide)]
    rw [show (lowerSet ["x"] ∩ (∅ : Finset String)).card = 0 from by decide]
    rw [show ((0 : ℕ) : ℚ) = 0 from by norm_num, zero_div]
    rw [show ((7:ℚ)/10 * 0 + 3/10 * 0) * 100 = ((0 : ℤ) : ℚ) from by norm_num]
    rw [round2_eq_of_mul_eq_int _ 0 (by norm_num)]
    norm_num
  have hsorted : sortedScores ∅ [("A", RoleData.mk ["x"] [])]
      = [("A", (0 : ℚ))] := by
    simp [sortedScores, rawScores, hscore]
  refine ⟨?_, by decide, by decide⟩
  unfold score_roles_v3
  dsimp only
  rw [hsorted]
  unfold recRolesV3 recBase
  dsimp only
  rw [show (([("A", (0:ℚ))].filter
      (fun p => decide (40 ≤ p.2))).map Prod.fst).take 3 = [] from by
    simp [List.filter]
    norm_num]
  simp

/-- C9, counterexample: the candidate token 42 has length 2 (within
2–30) and consists of alphanumeric characters, so the claim says the
capability-tagging pass keeps it; but the code's regex class
`[A-Za-z#\+\-\.]` contains no digits, so `extract_skills` drops it and
returns the empty list. -/
theorem claim_C9_cex :
    extract_skills ["42"] [] = [] ∧
    lowerStr (trimStr "42") = "42" ∧
    2 ≤ "42".length ∧ "42".length ≤ 30 ∧
    "42".toList.any Char.isAlphanum = true := by
  refine ⟨?_, by decide, by decide, by decide, by decide⟩
  unfold extract_skills
  rw [show (["42"].filterMap nlpCandidate).toFinset ∪ ([] : List String).toFinset
      = (∅ : Finset String) from by decide]
  exact Finset.sort_empty _

end HireSense
